import Mathlib

/-!
Verification of the SonarLint VSCode client core against its specification.

Shallow embedding notes:
- `src/src/scm.ts` (the source-control bridge) is embedded with the VSCode git
  extension API made explicit: a `GitApi` record carries the collaborator state,
  the known repositories and the `getRepository` lookup.  JavaScript exceptions
  are made explicit with `Except JsError`.
- `src/unnamed/part_001` (the extension main module) provides `toUrl`,
  `parseVMargs`, `performIsIgnoredCheck`, `runJavaServer` and
  `convertCompilationDB`; each is embedded below next to its theorems.
- Machine-independent collaborators (JavaScript `encodeURI`, the `shlex`
  library, Node's `path`) are modelled from their documented semantics;
  repository code that is not part of the given sources (the URI decoder
  `protocol2CodeConverter` of `src/uri.ts`) is modelled from the spec and
  marked as such.
-/

set_option autoImplicit false
set_option linter.unusedVariables false

/-! ## JavaScript exceptions -/

/-- Explicit model of a JavaScript exception: a `TypeError` raised by a
property access on `undefined`, or any other raised error. -/
inductive JsError where
  | typeError : JsError
  | raised : String → JsError
deriving DecidableEq

/-! ## Source-control bridge (`src/src/scm.ts`) -/

/-- A git repository as seen through the VSCode git extension API:
`rootUri` is `repository.rootUri.toString()` and `headName` is
`repository.state.HEAD?.name` (absent when detached or unknown). -/
structure Repository where
  rootUri : String
  headName : Option String
deriving DecidableEq

/-- The git extension API collaborator: its `state` string, the list of known
repositories, and the `getRepository` lookup from a folder URI, which returns
`null` (here `none`) when no repository is associated with the folder. -/
structure GitApi where
  state : String
  repositories : List Repository
  getRepository : String → Option Repository

/-- JavaScript `s.startsWith(pre)` on strings, modelled as the prefix test on
the character sequences. -/
def uriStartsWith (s pre : String) : Bool :=
  pre.toList.isPrefixOf s.toList

/-- Embedding of the body of the `repository.state.onDidChange` listener
registered by `GitScm.subscribeToRepositoryChanges` (scm.ts lines 66-76):
on a repository state change, for each workspace folder whose URI string
starts with the repository root URI string, one notification
`(folder, repository.state.HEAD?.name)` is pushed via
`client.didLocalBranchNameChange`; other folders are skipped. -/
def GitScm.subscribeToRepositoryChanges (workspaceFolders : List String)
    (repository : Repository) : List (String × Option String) :=
  (workspaceFolders.filter (fun folder => uriStartsWith folder repository.rootUri)).map
    (fun folder => (folder, repository.headName))

/-- Embedding of `GitScm.getBranchForFolder` (scm.ts lines 53-55):
`this.gitApi.getRepository(folderUri).state.HEAD?.name`.  Note the source has
no optional chaining after `getRepository`, so a `null` repository makes the
`.state` access throw a `TypeError`. -/
def GitScm.getBranchForFolder (gitApi : GitApi) (folderUri : String) :
    Except JsError (Option String) :=
  match gitApi.getRepository folderUri with
  | none => Except.error JsError.typeError
  | some repo => Except.ok repo.headName

/-- Embedding of `NoopScm.getBranchForFolder` (scm.ts lines 23-25): always
returns `null`. -/
def NoopScm.getBranchForFolder (folderUri : String) : Option String :=
  none

/-- Embedding of `GitScm.subscribeToAllRepositoryChanges` (scm.ts lines 57-64),
restricted to its notification output: for every workspace folder it pushes
`(folder, this.gitApi.getRepository(folder.uri)?.state.HEAD?.name)` — note the
source iterates over all workspace folders unconditionally. -/
def GitScm.subscribeToAllRepositoryChanges (gitApi : GitApi)
    (workspaceFolders : List String) : List (String × Option String) :=
  workspaceFolders.map
    (fun folder => (folder, (gitApi.getRepository folder).bind Repository.headName))

/-- Embedding of the initial-enumeration decision in the `GitScm` constructor
(scm.ts lines 36-51): the initial notifications are pushed at construction
exactly when the collaborator state is already `initialized` (otherwise they
are deferred to the state-change event, which fires the same enumeration). -/
def GitScm.constructorInitialNotifications (gitApi : GitApi)
    (workspaceFolders : List String) : List (String × Option String) :=
  if gitApi.state = ("initialized" : String) then
    GitScm.subscribeToAllRepositoryChanges gitApi workspaceFolders
  else []

/-- One guarded disposal step of `GitScm.dispose` (scm.ts lines 78-86): each
listener's `dispose()` runs inside its own `try`/`catch` whose handler ignores
the error. -/
def tryDisposeListener (disposal : Except JsError Unit) : Except JsError Unit :=
  match disposal with
  | Except.ok _ => Except.ok ()
  | Except.error _ => Except.ok ()

/-- Embedding of `GitScm.dispose` (scm.ts lines 78-86): fold over the
registered listeners in the exception monad, attempting each disposal behind
`tryDisposeListener` and counting the attempts. -/
def GitScm.dispose (listenerDisposals : List (Except JsError Unit)) :
    Except JsError Nat :=
  listenerDisposals.foldlM
    (fun attempted d => (tryDisposeListener d).map (fun _ => attempted + 1)) 0

/-! ## Ignore-status check (`performIsIgnoredCheck`, part_001 lines 690-712) -/

/-- The host environment of `performIsIgnoredCheck`: the workspace-folder
lookup for a parsed URI, the relative-path computation, the git extension
lookup (`none` models `getExtension` returning `undefined`, `some none` models
an extension object with `null`/`undefined` `exports`), the
`getAPI(1).git.path` access (which may throw), and the delegated SCM check
(which may reject). -/
structure IgnoreCheckEnv where
  getWorkspaceFolder : String → Option String
  asRelativePath : String → String
  gitExtensionLookup : Option (Option Unit)
  getAPIGitPath : Except JsError String
  scmCheck : String → String → Except JsError Bool

/-- Embedding of `performIsIgnoredCheck` (part_001 lines 690-712).  The first
component is the settled outcome of the returned promise (`Except.error`
models a rejection); the second component records whether the delegated
`scmCheck` collaborator was invoked.  Control flow follows the source: return
`false` when the URI has no workspace folder; access `.exports` on the result
of `getExtension` (throwing when that result is `undefined`); return `false`
when `exports` is null-ish; then run the guarded `try` block in which any
exception from `getAPI(1).git.path` or from the awaited `scmCheck` is caught
and turned into `false`. -/
def performIsIgnoredCheck (env : IgnoreCheckEnv) (fileUri : String) :
    Except JsError Bool × Bool :=
  match env.getWorkspaceFolder fileUri with
  | none => (Except.ok false, false)
  | some folderPath =>
    let relativeFileUri := env.asRelativePath fileUri
    match env.gitExtensionLookup with
    | none => (Except.error JsError.typeError, false)
    | some none => (Except.ok false, false)
    | some (some _) =>
      match env.getAPIGitPath with
      | Except.error _ => (Except.ok false, false)
      | Except.ok gitPath =>
        let command := ("\"" ++ gitPath ++ "\" check-ignore " ++ relativeFileUri)
        match env.scmCheck folderPath command with
        | Except.error _ => (Except.ok false, true)
        | Except.ok b => (Except.ok b, true)

/-! ## Helper lemmas on the bridge -/

theorem filter_beq_eq_of_nodup {α : Type} [DecidableEq α] (l : List α) (f : α)
    (hnd : l.Nodup) (hmem : f ∈ l) : l.filter (fun a => a == f) = [f] := by
  induction l with
  | nil => cases hmem
  | cons a t ih =>
    rcases List.nodup_cons.mp hnd with ⟨hna, hnt⟩
    by_cases haf : a = f
    · have hbeq : (a == f) = true := by simp [haf]
      rw [List.filter_cons, hbeq]
      have hft : t.filter (fun x => x == f) = [] := by
        rw [List.filter_eq_nil_iff]
        intro x hx
        simp only [ne_eq, beq_iff_eq]
        intro hxf
        refine hna ?_
        rw [haf, ← hxf]
        exact hx
      rw [hft]
      simp [haf]
    · have hbeq : (a == f) = false := by simp [haf]
      rw [List.filter_cons, hbeq]
      have hmem' : f ∈ t := by
        rcases List.mem_cons.mp hmem with h | h
        · exact absurd h.symm haf
        · exact h
      simpa using ih hnt hmem'

theorem filter_beq_eq_nil_of_not_mem {α : Type} [DecidableEq α] (l : List α) (f : α)
    (hmem : f ∉ l) : l.filter (fun a => a == f) = [] := by
  rw [List.filter_eq_nil_iff]
  intro x hx
  simp only [ne_eq, beq_iff_eq]
  intro hxa
  exact hmem (hxa ▸ hx)

theorem subscribeToRepositoryChanges_filter_eq (repo : Repository) (f : String)
    (folders : List String) (hnd : folders.Nodup) (hmem : f ∈ folders)
    (hpre : uriStartsWith f repo.rootUri = true) :
    (GitScm.subscribeToRepositoryChanges folders repo).filter (fun p => p.1 == f)
      = [(f, repo.headName)] := by
  unfold GitScm.subscribeToRepositoryChanges
  rw [List.filter_map]
  have hcomp : ((fun p : String × Option String => p.1 == f) ∘
      (fun folder => (folder, repo.headName))) = fun x => x == f := rfl
  rw [hcomp, List.filter_filter]
  have hcongr : (folders.filter fun a => (a == f) && uriStartsWith a repo.rootUri)
      = folders.filter (fun a => a == f) := by
    apply List.filter_congr
    intro x _
    by_cases hx : x = f
    · subst hx
      simp [hpre]
    · simp [hx]
  rw [hcongr, filter_beq_eq_of_nodup folders f hnd hmem]
  rfl

theorem subscribeToRepositoryChanges_filter_nil (repo : Repository) (f : String)
    (folders : List String) (hpre : uriStartsWith f repo.rootUri = false) :
    (GitScm.subscribeToRepositoryChanges folders repo).filter (fun p => p.1 == f)
      = [] := by
  unfold GitScm.subscribeToRepositoryChanges
  rw [List.filter_eq_nil_iff]
  intro p hp
  simp only [List.mem_map, List.mem_filter] at hp
  rcases hp with ⟨x, ⟨_, hx⟩, rfl⟩
  simp only [ne_eq, beq_iff_eq]
  intro hxf
  rw [hxf] at hx
  rw [hpre] at hx
  cases hx

/-! ## Claim C2 -/

/-- C2: for every repository state-change event, every workspace folder whose
URI string extends the repository's root URI string receives exactly one
branch-change notification carrying the repository's current HEAD name (or
absence when detached), and folders not under the repository root receive no
notification from that event. -/
theorem subscribeToRepositoryChanges_spec :
    ∀ (folders : List String) (repo : Repository) (f : String), folders.Nodup →
      (f ∈ folders → uriStartsWith f repo.rootUri = true →
        (GitScm.subscribeToRepositoryChanges folders repo).filter (fun p => p.1 == f)
          = [(f, repo.headName)]) ∧
      (uriStartsWith f repo.rootUri = false →
        (GitScm.subscribeToRepositoryChanges folders repo).filter (fun p => p.1 == f)
          = []) := by
  intro folders repo f hnd
  exact ⟨fun hmem hpre => subscribeToRepositoryChanges_filter_eq repo f folders hnd hmem hpre,
         fun hpre => subscribeToRepositoryChanges_filter_nil repo f folders hpre⟩

theorem subscribeToRepositoryChanges_spec_witness :
    (GitScm.subscribeToRepositoryChanges [("file:///repo/sub"), ("file:///other")]
        ⟨("file:///repo"), some ("main")⟩).filter
        (fun p => p.1 == ("file:///repo/sub" : String))
      = [(("file:///repo/sub"), some ("main"))] ∧
    (GitScm.subscribeToRepositoryChanges [("file:///repo/sub"), ("file:///other")]
        ⟨("file:///repo"), some ("main")⟩).filter
        (fun p => p.1 == ("file:///other" : String))
      = [] := by
  constructor
  · exact (subscribeToRepositoryChanges_spec [("file:///repo/sub"), ("file:///other")]
      ⟨("file:///repo"), some ("main")⟩ ("file:///repo/sub") (by decide)).1
      (by decide) (by decide)
  · exact (subscribeToRepositoryChanges_spec [("file:///repo/sub"), ("file:///other")]
      ⟨("file:///repo"), some ("main")⟩ ("file:///other") (by decide)).2 (by decide)

/-! ## Claim C3 -/

/-- A git API collaborator that associates no repository with any folder. -/
def noRepoGitApi : GitApi :=
  { state := ("initialized"), repositories := [], getRepository := fun _ => none }

/-- C3 counterexample: `GitScm.getBranchForFolder` is not total.  When
`getRepository` returns `null` (no repository associated with the folder), the
`.state` access in `scm.ts` line 54 has no optional chaining and throws a
`TypeError`, contradicting the claim that the lookup never throws in that
case. -/
theorem getBranchForFolder_counterexample :
    GitScm.getBranchForFolder noRepoGitApi ("file:///w")
      = Except.error JsError.typeError := rfl

/-- C3 (amended): `GitScm.getBranchForFolder` returns the collaborator's HEAD
reference name (or absence) whenever `getRepository` associates a repository
with the folder; when no repository is associated it throws a `TypeError`
(the source lacks optional chaining after `getRepository`); the no-op variant
is total and always returns absence. -/
theorem getBranchForFolder_amended_spec :
    (∀ (api : GitApi) (folderUri : String) (repo : Repository),
        api.getRepository folderUri = some repo →
        GitScm.getBranchForFolder api folderUri = Except.ok repo.headName) ∧
    (∀ (api : GitApi) (folderUri : String),
        api.getRepository folderUri = none →
        GitScm.getBranchForFolder api folderUri = Except.error JsError.typeError) ∧
    (∀ folderUri : String, NoopScm.getBranchForFolder folderUri = none) := by
  refine ⟨?_, ?_, ?_⟩
  · intro api u r h
    unfold GitScm.getBranchForFolder
    rw [h]
  · intro api u h
    unfold GitScm.getBranchForFolder
    rw [h]
  · intro u
    rfl

/-- A git API collaborator with exactly one known repository. -/
def singleRepoGitApi : GitApi :=
  { state := ("initialized"),
    repositories := [⟨("file:///repo"), some ("main")⟩],
    getRepository := fun u =>
      if u = ("file:///repo/a") then some ⟨("file:///repo"), some ("main")⟩ else none }

theorem getBranchForFolder_amended_witness :
    GitScm.getBranchForFolder singleRepoGitApi ("file:///repo/a")
      = Except.ok (some ("main")) :=
  getBranchForFolder_amended_spec.1 singleRepoGitApi ("file:///repo/a")
    ⟨("file:///repo"), some ("main")⟩ (by decide)

/-! ## Claim C4 -/

/-- A git API collaborator that is already initialized and knows no
repository at all. -/
def emptyRepoGitApi : GitApi :=
  { state := ("initialized"), repositories := [], getRepository := fun _ => none }

/-- C4 counterexample: with the collaborator already initialized and no
repository known, the initial enumeration still pushes a notification (with an
absent branch) for a workspace folder contained in no repository — the source
iterates over all workspace folders unconditionally — contradicting the claim
that no notification is pushed for such a folder. -/
theorem constructorInitialNotifications_counterexample :
    GitScm.constructorInitialNotifications emptyRepoGitApi [("file:///w")]
      = [(("file:///w"), (none : Option String))] := by decide

/-- C4 (amended): the initial enumeration pushes exactly one branch
notification for every workspace folder — carrying the folder's repository
HEAD name when `getRepository` associates one, and an absent branch otherwise;
and it runs at construction exactly when the collaborator state is already
`initialized`. -/
theorem subscribeToAllRepositoryChanges_amended_spec :
    ∀ (api : GitApi) (folders : List String) (f : String), folders.Nodup →
      (f ∈ folders →
        (GitScm.subscribeToAllRepositoryChanges api folders).filter (fun p => p.1 == f)
          = [(f, (api.getRepository f).bind Repository.headName)]) ∧
      (f ∉ folders →
        (GitScm.subscribeToAllRepositoryChanges api folders).filter (fun p => p.1 == f)
          = []) ∧
      (api.state = ("initialized" : String) →
        GitScm.constructorInitialNotifications api folders
          = GitScm.subscribeToAllRepositoryChanges api folders) ∧
      (api.state ≠ ("initialized" : String) →
        GitScm.constructorInitialNotifications api folders = []) := by
  intro api folders f hnd
  have hcomp : ((fun p : String × Option String => p.1 == f) ∘
      (fun folder => (folder, (api.getRepository folder).bind Repository.headName)))
      = fun x => x == f := rfl
  refine ⟨?_, ?_, ?_, ?_⟩
  · intro hmem
    unfold GitScm.subscribeToAllRepositoryChanges
    rw [List.filter_map, hcomp, filter_beq_eq_of_nodup folders f hnd hmem]
    rfl
  · intro hmem
    unfold GitScm.subscribeToAllRepositoryChanges
    rw [List.filter_map, hcomp, filter_beq_eq_nil_of_not_mem folders f hmem]
    rfl
  · intro hst
    unfold GitScm.constructorInitialNotifications
    rw [if_pos hst]
  · intro hst
    unfold GitScm.constructorInitialNotifications
    rw [if_neg hst]

theorem subscribeToAllRepositoryChanges_amended_witness :
    (GitScm.subscribeToAllRepositoryChanges singleRepoGitApi
        [("file:///repo/a"), ("file:///w")]).filter
        (fun p => p.1 == ("file:///w" : String))
      = [(("file:///w"), (none : Option String))] := by
  have h := (subscribeToAllRepositoryChanges_amended_spec singleRepoGitApi
    [("file:///repo/a"), ("file:///w")] ("file:///w") (by decide)).1 (by decide)
  simpa using h

/-! ## Claim C9 -/

theorem dispose_foldlM_ok (ls : List (Except JsError Unit)) :
    ∀ n : Nat,
      List.foldlM
        (fun attempted d => (tryDisposeListener d).map (fun _ => attempted + 1)) n ls
      = Except.ok (n + ls.length) := by
  induction ls with
  | nil =>
    intro n
    rfl
  | cons d t ih =>
    intro n
    have hd : tryDisposeListener d = Except.ok () := by
      cases d <;> rfl
    have hstep : List.foldlM
        (fun attempted d => (tryDisposeListener d).map (fun _ => attempted + 1)) n (d :: t)
        = List.foldlM
        (fun attempted d => (tryDisposeListener d).map (fun _ => attempted + 1)) (n + 1) t := by
      simp [List.foldlM, hd, Except.map, bind, Except.bind]
    rw [hstep, ih (n + 1), List.length_cons]
    congr 1
    omega

/-- C9: disposing the functioning SCM bridge never throws: for every list of
registered listeners, including listeners whose own unsubscribe throws, the
dispose fold completes without error and attempts every listener (each failure
is isolated by the per-listener `try`/`catch`). -/
theorem dispose_spec :
    ∀ listenerDisposals : List (Except JsError Unit),
      GitScm.dispose listenerDisposals = Except.ok listenerDisposals.length := by
  intro ls
  unfold GitScm.dispose
  simpa using dispose_foldlM_ok ls 0

/-! ## Claim C10 -/

/-- C10: for every file URI that does not belong to any workspace folder, the
ignore-status check resolves to `false` and never invokes the delegated SCM
check (the second component instruments that invocation). -/
theorem performIsIgnoredCheck_outside_workspace :
    ∀ (env : IgnoreCheckEnv) (fileUri : String),
      env.getWorkspaceFolder fileUri = none →
      performIsIgnoredCheck env fileUri = (Except.ok false, false) := by
  intro env u h
  unfold performIsIgnoredCheck
  rw [h]

/-- An environment whose workspace-folder lookup fails for every URI, whose
git extension is absent and whose SCM check always rejects. -/
def noFolderEnv : IgnoreCheckEnv :=
  { getWorkspaceFolder := fun _ => none,
    asRelativePath := fun u => u,
    gitExtensionLookup := none,
    getAPIGitPath := Except.ok ("git"),
    scmCheck := fun _ _ => Except.error (JsError.raised ("boom")) }

theorem performIsIgnoredCheck_outside_workspace_witness :
    performIsIgnoredCheck noFolderEnv ("file:///outside/a.txt")
      = (Except.ok false, false) :=
  performIsIgnoredCheck_outside_workspace noFolderEnv ("file:///outside/a.txt") rfl

/-! ## Claim C8 -/

/-- An environment in which `getExtension('vscode.git')` returns `undefined`
while everything else behaves. -/
def missingGitExtensionEnv : IgnoreCheckEnv :=
  { getWorkspaceFolder := fun _ => some ("/w"),
    asRelativePath := fun u => u,
    gitExtensionLookup := none,
    getAPIGitPath := Except.ok ("git"),
    scmCheck := fun _ _ => Except.ok false }

/-- C8 counterexample: when `getExtension('vscode.git')` returns `undefined`,
the `.exports` access (part_001 line 700) happens outside the `try` block and
throws, so the check rejects with a `TypeError` instead of resolving to
`false` — contradicting the claim that any exception at any point is swallowed
and the check never rejects. -/
theorem performIsIgnoredCheck_counterexample :
    (performIsIgnoredCheck missingGitExtensionEnv ("file:///w/a.txt")).1
      = Except.error JsError.typeError := rfl

/-- C8 (amended): provided the git-extension lookup itself returns an object
(so the unguarded `.exports` access does not fault), `performIsIgnoredCheck`
always resolves to some boolean, and any exception raised inside the guarded
region — by the `getAPI(1).git.path` access or by the delegated SCM check — is
swallowed and turned into `false`. -/
theorem performIsIgnoredCheck_amended_spec :
    ∀ (env : IgnoreCheckEnv) (fileUri : String),
      env.gitExtensionLookup ≠ none →
      (∃ b, (performIsIgnoredCheck env fileUri).1 = Except.ok b) ∧
      (∀ e, env.getAPIGitPath = Except.error e →
        (performIsIgnoredCheck env fileUri).1 = Except.ok false) ∧
      ((∀ folder command, ∃ e, env.scmCheck folder command = Except.error e) →
        (performIsIgnoredCheck env fileUri).1 = Except.ok false) := by
  intro env u hext
  cases hwf : env.getWorkspaceFolder u with
  | none =>
    refine ⟨⟨false, ?_⟩, fun e he => ?_, fun hall => ?_⟩ <;>
      simp [performIsIgnoredCheck, hwf]
  | some folderPath =>
    cases hlook : env.gitExtensionLookup with
    | none => exact absurd hlook hext
    | some exportsOpt =>
      cases exportsOpt with
      | none =>
        refine ⟨⟨false, ?_⟩, fun e he => ?_, fun hall => ?_⟩ <;>
          simp [performIsIgnoredCheck, hwf, hlook]
      | some u0 =>
        cases hapi : env.getAPIGitPath with
        | error e0 =>
          refine ⟨⟨false, ?_⟩, fun e he => ?_, fun hall => ?_⟩ <;>
            simp [performIsIgnoredCheck, hwf, hlook, hapi]
        | ok gitPath =>
          refine ⟨?_, fun e he => ?_, fun hall => ?_⟩
          · cases hchk : env.scmCheck folderPath
                (("\"" ++ gitPath ++ "\" check-ignore " ++ env.asRelativePath u)) with
            | error e1 =>
              exact ⟨false, by simp [performIsIgnoredCheck, hwf, hlook, hapi, hchk]⟩
            | ok b =>
              exact ⟨b, by simp [performIsIgnoredCheck, hwf, hlook, hapi, hchk]⟩
          · exact Except.noConfusion he
          · rcases hall folderPath
                (("\"" ++ gitPath ++ "\" check-ignore " ++ env.asRelativePath u))
              with ⟨e1, he1⟩
            simp [performIsIgnoredCheck, hwf, hlook, hapi, he1]

/-- An environment whose git extension is present but whose delegated SCM
check always rejects. -/
def throwingScmEnv : IgnoreCheckEnv :=
  { getWorkspaceFolder := fun _ => some ("/w"),
    asRelativePath := fun u => u,
    gitExtensionLookup := some (some ()),
    getAPIGitPath := Except.ok ("git"),
    scmCheck := fun _ _ => Except.error (JsError.raised ("git failed")) }

theorem performIsIgnoredCheck_amended_witness :
    (performIsIgnoredCheck throwingScmEnv ("file:///w/a.txt")).1 = Except.ok false :=
  (performIsIgnoredCheck_amended_spec throwingScmEnv ("file:///w/a.txt")
      (by decide)).2.2
    (fun folder command => ⟨JsError.raised ("git failed"), rfl⟩)

/-! ## Transport bootstrapper (`runJavaServer`, part_001 lines 262-288) -/

/-- Asynchronous events delivered to the bootstrapper by the Node runtime:
the `listen` callback firing once the listener is active (carrying the
OS-assigned port read back from `server.address()`), a child connection being
accepted, and data arriving on an accepted socket. -/
inductive BootEvent where
  | listenReady (osPort : Nat)
  | connection
  | dataArrives
deriving DecidableEq

/-- Actions performed by the bootstrapper: the initial `server.listen(port)`
request, spawning the child process with the port encoded as a startup
argument, and resolving the stream promise. -/
inductive BootAct where
  | listenRequest (port : Nat)
  | spawnChild (portArg : Nat)
  | resolveStream
deriving DecidableEq

/-- Embedding of the synchronous prefix of `runJavaServer` once requirements
have resolved: create the server with its connection handler and call
`server.listen(0, ...)` — port `0`, so the port is OS-assigned.  The boolean
state records whether the stream promise has been resolved. -/
def runJavaServerInit : Bool × List BootAct :=
  (false, [BootAct.listenRequest 0])

/-- Embedding of the event handlers of `runJavaServer` (part_001 lines
262-288): the `listen` callback spawns the child with the OS-assigned port as
startup argument; the connection handler resolves the stream promise at once
(resolving an already-settled promise is a no-op); data arriving on the
socket is not waited for and triggers no action. -/
def runJavaServerStep (resolved : Bool) : BootEvent → Bool × List BootAct
  | BootEvent.listenReady p => (resolved, [BootAct.spawnChild p])
  | BootEvent.connection =>
    if resolved then (resolved, []) else (true, [BootAct.resolveStream])
  | BootEvent.dataArrives => (resolved, [])

/-- The actions emitted, in order, by a run of the bootstrapper over a
sequence of delivered events. -/
def runJavaServerTrace (resolved : Bool) : List BootEvent → List BootAct
  | [] => []
  | e :: es =>
    (runJavaServerStep resolved e).2
      ++ runJavaServerTrace (runJavaServerStep resolved e).1 es

/-- The resolution state after a run of the bootstrapper. -/
def runJavaServerState (resolved : Bool) : List BootEvent → Bool
  | [] => resolved
  | e :: es => runJavaServerState (runJavaServerStep resolved e).1 es

theorem runJavaServerTrace_append (xs ys : List BootEvent) :
    ∀ resolved : Bool,
      runJavaServerTrace resolved (xs ++ ys)
        = runJavaServerTrace resolved xs
          ++ runJavaServerTrace (runJavaServerState resolved xs) ys := by
  induction xs with
  | nil => intro r; rfl
  | cons e es ih =>
    intro r
    show (runJavaServerStep r e).2
          ++ runJavaServerTrace (runJavaServerStep r e).1 (es ++ ys)
        = ((runJavaServerStep r e).2
            ++ runJavaServerTrace (runJavaServerStep r e).1 es)
          ++ runJavaServerTrace (runJavaServerState (runJavaServerStep r e).1 es) ys
    rw [ih (runJavaServerStep r e).1, List.append_assoc]

theorem runJavaServerTrace_unresolved (es : List BootEvent)
    (h : BootEvent.connection ∉ es) :
    runJavaServerState false es = false ∧
    BootAct.resolveStream ∉ runJavaServerTrace false es := by
  induction es with
  | nil => exact ⟨rfl, by simp [runJavaServerTrace]⟩
  | cons e t ih =>
    have he : e ≠ BootEvent.connection := fun hc => h (hc ▸ List.mem_cons_self e t)
    have ht : BootEvent.connection ∉ t := fun hc => h (List.mem_cons_of_mem e hc)
    rcases ih ht with ⟨hst, htr⟩
    cases e with
    | listenReady p =>
      refine ⟨hst, ?_⟩
      simp only [runJavaServerTrace, runJavaServerStep, List.mem_append,
        List.mem_singleton]
      rintro (h1 | h1)
      · cases h1
      · exact htr h1
    | connection => exact absurd rfl he
    | dataArrives =>
      refine ⟨hst, ?_⟩
      simpa [runJavaServerTrace, runJavaServerStep] using htr

theorem runJavaServerTrace_resolved (es : List BootEvent) :
    runJavaServerState true es = true ∧
    BootAct.resolveStream ∉ runJavaServerTrace true es := by
  induction es with
  | nil => exact ⟨rfl, by simp [runJavaServerTrace]⟩
  | cons e t ih =>
    rcases ih with ⟨hst, htr⟩
    cases e with
    | listenReady p =>
      refine ⟨hst, ?_⟩
      simp only [runJavaServerTrace, runJavaServerStep, List.mem_append,
        List.mem_singleton]
      rintro (h1 | h1)
      · cases h1
      · exact htr h1
    | connection =>
      refine ⟨hst, ?_⟩
      simpa [runJavaServerTrace, runJavaServerStep] using htr
    | dataArrives =>
      refine ⟨hst, ?_⟩
      simpa [runJavaServerTrace, runJavaServerStep] using htr

/-- C7: the bootstrapper binds the listening socket to OS-assigned port `0`;
a child process is spawned only in reaction to the listener becoming active,
with the OS-assigned port as its startup argument; data arriving on the
stream triggers nothing (no handshake message is awaited); and the stream
promise is resolved exactly once, at the instant the first child connection
is accepted, regardless of any later events. -/
theorem runJavaServer_spec :
    (runJavaServerInit = (false, [BootAct.listenRequest 0])) ∧
    (∀ (resolved : Bool) (e : BootEvent) (p : Nat),
        BootAct.spawnChild p ∈ (runJavaServerStep resolved e).2 →
        e = BootEvent.listenReady p) ∧
    (∀ resolved : Bool,
        runJavaServerStep resolved BootEvent.dataArrives = (resolved, [])) ∧
    (∀ pre : List BootEvent, BootEvent.connection ∉ pre →
        BootAct.resolveStream ∉ runJavaServerTrace runJavaServerInit.1 pre ∧
        (∀ post : List BootEvent,
          (runJavaServerTrace runJavaServerInit.1
              (pre ++ BootEvent.connection :: post)).count BootAct.resolveStream = 1) ∧
        runJavaServerTrace runJavaServerInit.1 (pre ++ [BootEvent.connection])
          = runJavaServerTrace runJavaServerInit.1 pre ++ [BootAct.resolveStream]) := by
  refine ⟨rfl, ?_, ?_, ?_⟩
  · intro r e p hmem
    cases e with
    | listenReady q =>
      simp only [runJavaServerStep, List.mem_singleton] at hmem
      cases hmem
      rfl
    | connection =>
      by_cases hr : r = true
      · subst hr
        simp [runJavaServerStep] at hmem
      · have : r = false := by
          cases r
          · rfl
          · exact absurd rfl hr
        subst this
        simp [runJavaServerStep] at hmem
    | dataArrives => simp [runJavaServerStep] at hmem
  · intro r
    rfl
  · intro pre hpre
    rcases runJavaServerTrace_unresolved pre hpre with ⟨hst, htr⟩
    refine ⟨htr, ?_, ?_⟩
    · intro post
      rw [show runJavaServerInit.1 = false from rfl] at *
      rw [runJavaServerTrace_append pre (BootEvent.connection :: post) false, hst]
      have hconn : runJavaServerTrace false (BootEvent.connection :: post)
          = BootAct.resolveStream :: runJavaServerTrace true post := by
        simp [runJavaServerTrace, runJavaServerStep]
      rw [hconn, List.count_append]
      have h0 : (runJavaServerTrace false pre).count BootAct.resolveStream = 0 :=
        List.count_eq_zero.mpr htr
      have h1 : (runJavaServerTrace true post).count BootAct.resolveStream = 0 :=
        List.count_eq_zero.mpr (runJavaServerTrace_resolved post).2
      rw [h0]
      simp [List.count_cons, h1]
    · rw [show runJavaServerInit.1 = false from rfl] at *
      rw [runJavaServerTrace_append pre [BootEvent.connection] false, hst]
      simp [runJavaServerTrace, runJavaServerStep]

theorem runJavaServer_spec_witness :
    (runJavaServerTrace runJavaServerInit.1
        ([BootEvent.listenReady 54321]
          ++ BootEvent.connection :: [BootEvent.dataArrives, BootEvent.connection])).count
      BootAct.resolveStream = 1 :=
  ((runJavaServer_spec.2.2.2 [BootEvent.listenReady 54321] (by decide)).2.1
    [BootEvent.dataArrives, BootEvent.connection])

/-! ## VM argument parsing (`parseVMargs`, part_001 lines 772-791) -/

/-- The whitespace class of the JavaScript regex `\s`, restricted to its
ASCII members (space, tab, line feed, carriage return, vertical tab, form
feed); the inputs of `parseVMargs` are settings strings over this range. -/
def isJsSpace (c : Char) : Bool :=
  c = (' ' : Char) || c = (Char.ofNat 9) || c = (Char.ofNat 10)
    || c = (Char.ofNat 13) || c = (Char.ofNat 11) || c = (Char.ofNat 12)

/-- One iteration of the repeated group of the token regex
`(?:[^\s"]+|"[^"]*")+`: either a maximal run of characters that are neither
whitespace nor a double quote, or a double-quoted segment (which requires a
closing quote to match).  Returns the matched characters and the remainder,
or `none` when neither alternative matches at this position. -/
def matchPiece (s : List Char) : Option (List Char × List Char) :=
  match s with
  | [] => none
  | c :: rest =>
    if c = ('"' : Char) then
      let inside := rest.takeWhile (fun x => !(x = ('"' : Char)))
      match rest.drop inside.length with
      | c2 :: rest2 => some (c :: (inside ++ [c2]), rest2)
      | [] => none
    else if isJsSpace c then none
    else
      let run := s.takeWhile (fun x => !isJsSpace x && !(x = ('"' : Char)))
      some (run, s.drop run.length)

/-- Greedy repetition of `matchPiece` (the `+` of the token regex); each
piece consumes at least one character, so fuel equal to the input length is
enough. -/
def matchPieces (fuel : Nat) (s : List Char) : List Char × List Char :=
  match fuel with
  | 0 => ([], s)
  | fuel + 1 =>
    match matchPiece s with
    | none => ([], s)
    | some (p, rest) =>
      let (q, r) := matchPieces fuel rest
      (p ++ q, r)

/-- A whole token match at the current position: at least one piece, then
greedily as many further pieces as possible. -/
def matchToken (fuel : Nat) (s : List Char) : Option (List Char × List Char) :=
  match matchPiece s with
  | none => none
  | some (p, rest) =>
    let (q, r) := matchPieces fuel rest
    some (p ++ q, r)

/-- Global scan of `vmargsLine.match(/(?:[^\s"]+|"[^"]*")+/g)`: at each
position try a token match; on failure advance one character, as the regex
engine does. -/
def tokenizeVMargs (fuel : Nat) (s : List Char) : List (List Char) :=
  match fuel with
  | 0 => []
  | fuel + 1 =>
    match s with
    | [] => []
    | c :: rest =>
      match matchToken fuel (c :: rest) with
      | some (t, r) => t :: tokenizeVMargs fuel r
      | none => tokenizeVMargs fuel rest

/-- First per-argument replace of `parseVMargs`:
`arg.replace(/(\\)?"/g, ($0, $1) => $1 ? $0 : '')` — every double quote not
directly preceded by a backslash is removed; a backslash-quote pair is kept
whole (the scan resumes after the pair). -/
def stripUnescapedQuotes : List Char → List Char
  | [] => []
  | [c] => if c = ('"' : Char) then [] else [c]
  | c :: c2 :: rest =>
    if c = ('\\' : Char) then
      if c2 = ('"' : Char) then c :: c2 :: stripUnescapedQuotes rest
      else c :: stripUnescapedQuotes (c2 :: rest)
    else if c = ('"' : Char) then stripUnescapedQuotes (c2 :: rest)
    else c :: stripUnescapedQuotes (c2 :: rest)

/-- Second per-argument replace of `parseVMargs`:
`arg.replace(/(\\)"/g, '"')` — every backslash-quote pair becomes a bare
quote. -/
def unescapeQuotes : List Char → List Char
  | [] => []
  | [c] => [c]
  | c :: c2 :: rest =>
    if c = ('\\' : Char) then
      if c2 = ('"' : Char) then c2 :: unescapeQuotes rest
      else c :: unescapeQuotes (c2 :: rest)
    else c :: unescapeQuotes (c2 :: rest)

/-- The per-argument post-processing of `parseVMargs`: strip standalone
quotes, then unescape escaped quotes. -/
def processVMArg (arg : List Char) : String :=
  String.mk (unescapeQuotes (stripUnescapedQuotes arg))

/-- Embedding of `parseVMargs` (part_001 lines 772-791): an empty (falsy)
line leaves `params` unchanged; otherwise the line is tokenized by the global
regex, each token is post-processed, and it is appended to `params` only when
not already present (`params.indexOf(arg) < 0`). -/
def parseVMargs (params : List String) (vmargsLine : String) : List String :=
  if vmargsLine = ("" : String) then params
  else
    (tokenizeVMargs vmargsLine.toList.length vmargsLine.toList).foldl
      (fun ps arg =>
        let a := processVMArg arg
        if a ∈ ps then ps else ps ++ [a]) params

theorem parseVMargs_foldl_count (args : List (List Char)) :
    ∀ (ps : List String) (a : String), a ∈ ps →
      (args.foldl
        (fun ps arg =>
          let x := processVMArg arg
          if x ∈ ps then ps else ps ++ [x]) ps).count a = ps.count a := by
  induction args with
  | nil => intro ps a h; rfl
  | cons arg t ih =>
    intro ps a ha
    simp only [List.foldl_cons]
    by_cases hmem : processVMArg arg ∈ ps
    · rw [if_pos hmem]
      exact ih ps a ha
    · rw [if_neg hmem]
      have ha' : a ∈ ps ++ [processVMArg arg] := List.mem_append_left _ ha
      rw [ih (ps ++ [processVMArg arg]) a ha', List.count_append]
      have hne : processVMArg arg ≠ a := fun h => hmem (h ▸ ha)
      simp [List.count_singleton, hne]

/-- C5: `parseVMargs` applied to the empty parameter list and the line
`-Xmx512m "-Dfoo=bar baz"` appends exactly `["-Xmx512m", "-Dfoo=bar baz"]`,
with the enclosing quotes stripped; and an argument already present in the
parameter list is never appended a second time (its multiplicity is
unchanged). -/
theorem parseVMargs_spec :
    parseVMargs [] ("-Xmx512m \"-Dfoo=bar baz\"")
        = [("-Xmx512m"), ("-Dfoo=bar baz")] ∧
    (∀ (params : List String) (vmargsLine : String) (a : String),
        a ∈ params →
        (parseVMargs params vmargsLine).count a = params.count a) := by
  constructor
  · decide
  · intro params line a ha
    unfold parseVMargs
    by_cases hline : line = ("" : String)
    · rw [if_pos hline]
    · rw [if_neg hline]
      exact parseVMargs_foldl_count _ params a ha

theorem parseVMargs_spec_witness :
    (("-Xmx512m" : String) ∈ [("-Xmx512m" : String)]) ∧
    (parseVMargs [("-Xmx512m")] ("-Xmx512m \"-Dfoo=bar baz\"")).count ("-Xmx512m") =
      [("-Xmx512m" : String)].count ("-Xmx512m") :=
  ⟨by decide,
   parseVMargs_spec.2 [("-Xmx512m")] ("-Xmx512m \"-Dfoo=bar baz\"") ("-Xmx512m")
     (by decide)⟩

/-! ## Compilation-database conversion (`convertCompilationDB`, part_001
lines 797-889) -/

/-- The single-quote character, used by the shell-word splitter. -/
def squote : Char := Char.ofNat 39

/-- Quoting state of the shell-word splitter. -/
inductive ShQuote where
  | free
  | inSingle
  | inDouble
deriving DecidableEq

/-- POSIX shell-word splitting, modelling the external `shlex` library's
`split` (used by `convertCompilationDB` when a compilation-database entry has
a command string and no argument list): words are separated by unquoted
whitespace; single quotes protect everything up to the closing quote; double
quotes protect everything except `\"` and `\\` escapes; an unquoted backslash
escapes the next character.  `fuel` at least the input length makes the
recursion total; each step consumes at least one character. -/
def shlexAux (fuel : Nat) (s : List Char) (qs : ShQuote) (inWord : Bool)
    (cur : List Char) : List (List Char) :=
  match fuel with
  | 0 => if inWord then [cur.reverse] else []
  | fuel + 1 =>
    match s with
    | [] => if inWord then [cur.reverse] else []
    | c :: rest =>
      match qs with
      | ShQuote.inSingle =>
        if c = squote then shlexAux fuel rest ShQuote.free true cur
        else shlexAux fuel rest ShQuote.inSingle true (c :: cur)
      | ShQuote.inDouble =>
        if c = ('"' : Char) then shlexAux fuel rest ShQuote.free true cur
        else if c = ('\\' : Char) then
          match rest with
          | [] => shlexAux fuel [] ShQuote.inDouble true (c :: cur)
          | c2 :: rest2 =>
            if c2 = ('"' : Char) || c2 = ('\\' : Char) then
              shlexAux fuel rest2 ShQuote.inDouble true (c2 :: cur)
            else shlexAux fuel rest2 ShQuote.inDouble true (c2 :: c :: cur)
        else shlexAux fuel rest ShQuote.inDouble true (c :: cur)
      | ShQuote.free =>
        if isJsSpace c then
          if inWord then cur.reverse :: shlexAux fuel rest ShQuote.free false []
          else shlexAux fuel rest ShQuote.free false []
        else if c = squote then shlexAux fuel rest ShQuote.inSingle true cur
        else if c = ('"' : Char) then shlexAux fuel rest ShQuote.inDouble true cur
        else if c = ('\\' : Char) then
          match rest with
          | [] => shlexAux fuel [] ShQuote.free true cur
          | c2 :: rest2 => shlexAux fuel rest2 ShQuote.free true (c2 :: cur)
        else shlexAux fuel rest ShQuote.free true (c :: cur)

/-- `shlex.split` on a command string. -/
def shlexSplit (s : String) : List String :=
  (shlexAux s.toList.length s.toList ShQuote.free false []).map
    (fun l => String.mk l)

/-- One entry of a compilation database: the working directory, the command
string, and the optional explicit argument list. -/
structure CompilationEntry where
  directory : String
  command : String
  arguments : Option (List String)
deriving DecidableEq

/-- One capture of the derived build-wrapper dump. -/
structure BuildWrapperCapture where
  compiler : String
  cwd : String
  executable : Option String
  cmd : List String
  env : List String
deriving DecidableEq

/-- The derived build-wrapper dump: `{version: 0, captures: [...]}`. -/
structure BuildWrapperDump where
  version : Nat
  captures : List BuildWrapperCapture
deriving DecidableEq

/-- Embedding of the per-entry capture construction of `convertCompilationDB`
(part_001 lines 869-879): the argument vector is the entry's explicit
`arguments` when present (with JavaScript `||`, an empty array is truthy and
is used as-is), otherwise `shlex.split` of the command string; the executable
is `args[0]` (absent when the vector is empty). -/
def entryCapture (buildWrapperCompiler : String) (environment : List String)
    (entry : CompilationEntry) : BuildWrapperCapture :=
  let args := match entry.arguments with
    | some a => a
    | none => shlexSplit entry.command
  { compiler := buildWrapperCompiler, cwd := entry.directory,
    executable := args.head?, cmd := args, env := environment }

/-- Embedding of `convertCompilationDB` (part_001 lines 797-889), reduced to
its conversion core.  File-system facts are explicit inputs: whether the
compilation-database file exists, whether the dump file already exists, and
the two modification times.  Returns the dump that is written, or `none` when
the conversion aborts (missing input file, or existing dump strictly newer
than the input). -/
def convertCompilationDB (buildWrapperCompiler : String) (environment : List String)
    (dbExists : Bool) (dumpExists : Bool) (dumpMtime dbMtime : Nat)
    (entries : List CompilationEntry) : Option BuildWrapperDump :=
  if !dbExists then none
  else if dumpExists && decide (dbMtime < dumpMtime) then none
  else some { version := 0,
              captures := entries.map (entryCapture buildWrapperCompiler environment) }

/-- C6: for the single-entry database `{"directory":"/p","command":"gcc -c a.c"}`
with an existing input and no dump file newer than it, the conversion writes a
dump of shape `{version: 0, captures: [...]}` with exactly one capture whose
executable is `gcc`, whose command vector is `["gcc","-c","a.c"]` and whose
working directory is `/p`; and in general the command string is tokenized
with shell-word-splitting rules exactly when the entry has no explicit
argument list. -/
theorem convertCompilationDB_spec :
    (∀ (compiler : String) (env : List String) (dumpExists : Bool)
        (dumpMtime dbMtime : Nat),
        ¬(dumpExists = true ∧ dbMtime < dumpMtime) →
        convertCompilationDB compiler env true dumpExists dumpMtime dbMtime
            [{ directory := ("/p"), command := ("gcc -c a.c"), arguments := none }]
          = some { version := 0,
                   captures := [{ compiler := compiler, cwd := ("/p"),
                                  executable := some ("gcc"),
                                  cmd := [("gcc"), ("-c"), ("a.c")],
                                  env := env }] }) ∧
    (∀ (compiler : String) (env : List String) (entry : CompilationEntry)
        (args : List String),
        entry.arguments = some args →
        (entryCapture compiler env entry).cmd = args) ∧
    (∀ (compiler : String) (env : List String) (entry : CompilationEntry),
        entry.arguments = none →
        (entryCapture compiler env entry).cmd = shlexSplit entry.command) := by
  refine ⟨?_, ?_, ?_⟩
  · intro compiler env de dm dbm h
    have hguard : (de && decide (dbm < dm)) = false := by
      cases de
      · rfl
      · simp only [Bool.true_and, decide_eq_false_iff_not]
        intro hlt
        exact h ⟨rfl, hlt⟩
    have hshlex : shlexSplit ("gcc -c a.c") = [("gcc"), ("-c"), ("a.c")] := by
      decide
    simp [convertCompilationDB, hguard, entryCapture, hshlex]
  · intro compiler env entry args ha
    unfold entryCapture
    simp [ha]
  · intro compiler env entry ha
    unfold entryCapture
    simp [ha]

theorem convertCompilationDB_spec_witness :
    convertCompilationDB ("clang") [] true false 0 0
        [{ directory := ("/p"), command := ("gcc -c a.c"), arguments := none }]
      = some { version := 0,
               captures := [{ compiler := ("clang"), cwd := ("/p"),
                              executable := some ("gcc"),
                              cmd := [("gcc"), ("-c"), ("a.c")],
                              env := [] }] } :=
  convertCompilationDB_spec.1 ("clang") [] false 0 0 (by simp)

/-! ## URI conversion (`toUrl`, part_001 lines 337-346) -/

/-- Hexadecimal digit character (uppercase, as produced by JavaScript's
`encodeURI`). -/
def hexDigitChar (n : Nat) : Char :=
  if n < 10 then Char.ofNat (48 + n) else Char.ofNat (55 + n)

/-- Hexadecimal digit test. -/
def isHexDigit (c : Char) : Bool :=
  (decide (48 ≤ c.toNat) && decide (c.toNat ≤ 57))
    || (decide (65 ≤ c.toNat) && decide (c.toNat ≤ 70))
    || (decide (97 ≤ c.toNat) && decide (c.toNat ≤ 102))

/-- Value of a hexadecimal digit character. -/
def hexVal (c : Char) : Nat :=
  if c.toNat ≤ 57 then c.toNat - 48
  else if c.toNat ≤ 70 then c.toNat - 55
  else c.toNat - 87

/-- UTF-8 encoding of a Unicode scalar value. -/
def utf8Bytes (n : Nat) : List Nat :=
  if n < 0x80 then [n]
  else if n < 0x800 then [0xC0 + n / 0x40, 0x80 + n % 0x40]
  else if n < 0x10000 then
    [0xE0 + n / 0x1000, 0x80 + n / 0x40 % 0x40, 0x80 + n % 0x40]
  else
    [0xF0 + n / 0x40000, 0x80 + n / 0x1000 % 0x40, 0x80 + n / 0x40 % 0x40,
     0x80 + n % 0x40]

/-- Percent-escape of a byte sequence: each byte becomes `%XX`. -/
def escBytes : List Nat → List Char
  | [] => []
  | b :: bs =>
    ('%' : Char) :: hexDigitChar (b / 16) :: hexDigitChar (b % 16) :: escBytes bs

/-- The characters JavaScript's `encodeURI` leaves unescaped (ECMA-262:
`uriReserved ∪ uriUnescaped ∪ {#}`): alphanumerics, the marks
`- _ . ! ~ * ' ( )`, the reserved set `; / ? : @ & = + $ ,`, and `#`. -/
def uriUnescaped (c : Char) : Bool :=
  (decide (65 ≤ c.toNat) && decide (c.toNat ≤ 90))
    || (decide (97 ≤ c.toNat) && decide (c.toNat ≤ 122))
    || (decide (48 ≤ c.toNat) && decide (c.toNat ≤ 57))
    || [('-' : Char), ('_' : Char), ('.' : Char), ('!' : Char), ('~' : Char),
        ('*' : Char), squote, ('(' : Char), (')' : Char), (';' : Char),
        ('/' : Char), ('?' : Char), (':' : Char), ('@' : Char), ('&' : Char),
        ('=' : Char), ('+' : Char), ('$' : Char), (',' : Char),
        ('#' : Char)].contains c

/-- `encodeURI` on one character: kept verbatim when unescaped, otherwise the
percent-escape of its UTF-8 bytes. -/
def encChar (c : Char) : List Char :=
  if uriUnescaped c then [c] else escBytes (utf8Bytes c.toNat)

/-- JavaScript's `encodeURI`, modelled character by character from its
ECMAScript description. -/
def encodeURI : List Char → List Char
  | [] => []
  | c :: t => encChar c ++ encodeURI t

/-- Percent-decoding to a byte sequence: a `%XX` escape contributes the byte
`XX`; any other character contributes its own UTF-8 bytes. -/
def pctDecode : List Char → List Nat
  | [] => []
  | [c] => utf8Bytes c.toNat
  | [c, c2] => utf8Bytes c.toNat ++ utf8Bytes c2.toNat
  | c :: h1 :: h2 :: rest =>
    if c = ('%' : Char) then
      if isHexDigit h1 && isHexDigit h2 then
        (hexVal h1 * 16 + hexVal h2) :: pctDecode rest
      else utf8Bytes c.toNat ++ pctDecode (h1 :: h2 :: rest)
    else utf8Bytes c.toNat ++ pctDecode (h1 :: h2 :: rest)

/-- UTF-8 decoding of a byte sequence (total; truncated multi-byte suffixes
decode to a replacement character, which never arises on the image of the
encoder). -/
def utf8Decode : List Nat → List Char
  | [] => []
  | [b] =>
    if b < 0xC0 then [Char.ofNat b] else [Char.ofNat 0xFFFD]
  | [b, b2] =>
    if b < 0xC0 then Char.ofNat b :: utf8Decode [b2]
    else if b < 0xE0 then [Char.ofNat ((b - 0xC0) * 0x40 + (b2 - 0x80))]
    else [Char.ofNat 0xFFFD]
  | [b, b2, b3] =>
    if b < 0xC0 then Char.ofNat b :: utf8Decode [b2, b3]
    else if b < 0xE0 then
      Char.ofNat ((b - 0xC0) * 0x40 + (b2 - 0x80)) :: utf8Decode [b3]
    else if b < 0xF0 then
      [Char.ofNat ((b - 0xE0) * 0x1000 + (b2 - 0x80) * 0x40 + (b3 - 0x80))]
    else [Char.ofNat 0xFFFD]
  | b :: b2 :: b3 :: b4 :: bs =>
    if b < 0xC0 then Char.ofNat b :: utf8Decode (b2 :: b3 :: b4 :: bs)
    else if b < 0xE0 then
      Char.ofNat ((b - 0xC0) * 0x40 + (b2 - 0x80)) :: utf8Decode (b3 :: b4 :: bs)
    else if b < 0xF0 then
      Char.ofNat ((b - 0xE0) * 0x1000 + (b2 - 0x80) * 0x40 + (b3 - 0x80))
        :: utf8Decode (b4 :: bs)
    else
      Char.ofNat ((b - 0xF0) * 0x40000 + (b2 - 0x80) * 0x1000
          + (b3 - 0x80) * 0x40 + (b4 - 0x80)) :: utf8Decode bs

/-- Percent-decoding of a character sequence: to bytes, then UTF-8. -/
def decodeURI (s : List Char) : List Char :=
  utf8Decode (pctDecode s)

/-- The UTF-8 byte sequence of a character sequence. -/
def utf8Str : List Char → List Nat
  | [] => []
  | c :: t => utf8Bytes c.toNat ++ utf8Str t

/-- The backslash normalization of `toUrl`:
`Path.resolve(filePath).replace(/\\/g, '/')`, on the resolved path. -/
def slashify (p : List Char) : List Char :=
  p.map (fun c => if c = ('\\' : Char) then ('/' : Char) else c)

/-- The `file://` scheme characters. -/
def fileScheme : List Char :=
  [('f' : Char), ('i' : Char), ('l' : Char), ('e' : Char), (':' : Char),
   ('/' : Char), ('/' : Char)]

/-- Embedding of `toUrl` (part_001 lines 337-346), applied to the resolved
path (`Path.resolve` is an external Node API, modelled as the identity on
already-resolved paths): replace every backslash by a slash, prefix one `/`
when the first character is not a slash (the Windows drive-letter case; an
empty path also receives the prefix since `pathName[0]` is `undefined`), then
return `encodeURI('file://' + pathName)`. -/
def toUrl (resolvedPath : List Char) : List Char :=
  let pathName := slashify resolvedPath
  let pathName2 :=
    if pathName.head? = some ('/' : Char) then pathName
    else ('/' : Char) :: pathName
  encodeURI (fileScheme ++ pathName2)

/-- Modelled from the spec: the decoding direction of the URI conversion (the
`protocol2CodeConverter` of `src/uri.ts` is not among the given sources).
The spec requires the conversion to "be bijective for round-tripping
(encode-then-decode yields the original path)" with "platform drive letters
on Windows-style absolute paths prefixed with an extra separator before
encoding"; accordingly the decoder strips the `file://` prefix,
percent-decodes, and for a Windows-style path drops the extra leading
separator and restores backslashes. -/
def fromUrl (isWindowsPath : Bool) (url : List Char) : List Char :=
  let p := decodeURI (url.drop fileScheme.length)
  if isWindowsPath then
    (p.drop 1).map (fun c => if c = ('/' : Char) then ('\\' : Char) else c)
  else p

theorem hexDigitRound : ∀ d : Nat, d < 16 →
    isHexDigit (hexDigitChar d) = true ∧ hexVal (hexDigitChar d) = d := by
  decide

theorem utf8Bytes_bytes_lt (n : Nat) (h : n < 0x110000) :
    ∀ b ∈ utf8Bytes n, b < 256 := by
  intro b hb
  unfold utf8Bytes at hb
  by_cases h1 : n < 0x80
  · simp only [if_pos h1, List.mem_singleton] at hb
    omega
  · by_cases h2 : n < 0x800
    · simp only [if_neg h1, if_pos h2, List.mem_cons, List.mem_singleton,
        List.not_mem_nil, or_false] at hb
      rcases hb with hb | hb <;> omega
    · by_cases h3 : n < 0x10000
      · simp only [if_neg h1, if_neg h2, if_pos h3, List.mem_cons,
          List.mem_singleton, List.not_mem_nil, or_false] at hb
        rcases hb with hb | hb | hb <;> omega
      · simp only [if_neg h1, if_neg h2, if_neg h3, List.mem_cons,
          List.mem_singleton, List.not_mem_nil, or_false] at hb
        rcases hb with hb | hb | hb | hb <;> omega

theorem pctDecode_cons_ne (c : Char) (l : List Char) (h : ¬c = ('%' : Char)) :
    pctDecode (c :: l) = utf8Bytes c.toNat ++ pctDecode l := by
  match l with
  | [] => simp [pctDecode]
  | [x] => simp [pctDecode]
  | x :: y :: t => simp [pctDecode, h]

theorem pctDecode_esc (b : Nat) (hb : b < 256) (t : List Char) :
    pctDecode (('%' : Char) :: hexDigitChar (b / 16) :: hexDigitChar (b % 16) :: t)
      = b :: pctDecode t := by
  have h1 := hexDigitRound (b / 16) (by omega)
  have h2 := hexDigitRound (b % 16) (by omega)
  simp only [pctDecode, if_pos rfl, h1.1, h2.1, Bool.and_self, if_pos, h1.2, h2.2]
  have hb16 : b / 16 * 16 + b % 16 = b := by omega
  rw [hb16]

theorem pctDecode_escBytes (bs : List Nat) (hbs : ∀ b ∈ bs, b < 256) (t : List Char) :
    pctDecode (escBytes bs ++ t) = bs ++ pctDecode t := by
  induction bs with
  | nil => rfl
  | cons b bs ih =>
    have hb : b < 256 := hbs b (List.mem_cons_self b bs)
    have ih' := ih (fun x hx => hbs x (List.mem_cons_of_mem b hx))
    simp only [escBytes, List.cons_append]
    rw [pctDecode_esc b hb (escBytes bs ++ t), ih']

theorem encodeURI_append (s t : List Char) :
    encodeURI (s ++ t) = encodeURI s ++ encodeURI t := by
  induction s with
  | nil => rfl
  | cons c s ih =>
    simp only [List.cons_append, encodeURI, List.append_eq, ih, List.append_assoc]

theorem uriUnescaped_ne_pct (c : Char) (h : uriUnescaped c = true) :
    ¬c = ('%' : Char) := by
  intro hc
  subst hc
  exact absurd h (by decide)

theorem char_toNat_lt (c : Char) : c.toNat < 0x110000 := by
  have h := c.valid
  rcases h with h | h
  · exact Nat.lt_trans h (by norm_num)
  · exact h.2

theorem utf8Decode_cons_one (b : Nat) (bs : List Nat) (h : b < 0xC0) :
    utf8Decode (b :: bs) = Char.ofNat b :: utf8Decode bs := by
  match bs with
  | [] => simp [utf8Decode, h]
  | [b2] => simp [utf8Decode, h]
  | [b2, b3] => simp [utf8Decode, h]
  | b2 :: b3 :: b4 :: t => simp [utf8Decode, h]

theorem utf8Decode_cons_two (b b2 : Nat) (bs : List Nat)
    (h1 : ¬b < 0xC0) (h2 : b < 0xE0) :
    utf8Decode (b :: b2 :: bs)
      = Char.ofNat ((b - 0xC0) * 0x40 + (b2 - 0x80)) :: utf8Decode bs := by
  match bs with
  | [] => simp [utf8Decode, h1, h2]
  | [b3] => simp [utf8Decode, h1, h2]
  | b3 :: b4 :: t => simp [utf8Decode, h1, h2]

theorem utf8Decode_cons_three (b b2 b3 : Nat) (bs : List Nat)
    (h1 : ¬b < 0xC0) (h2 : ¬b < 0xE0) (h3 : b < 0xF0) :
    utf8Decode (b :: b2 :: b3 :: bs)
      = Char.ofNat ((b - 0xE0) * 0x1000 + (b2 - 0x80) * 0x40 + (b3 - 0x80))
        :: utf8Decode bs := by
  match bs with
  | [] => simp [utf8Decode, h1, h2, h3]
  | b4 :: t => simp [utf8Decode, h1, h2, h3]

theorem utf8Decode_cons_four (b b2 b3 b4 : Nat) (bs : List Nat)
    (h1 : ¬b < 0xC0) (h2 : ¬b < 0xE0) (h3 : ¬b < 0xF0) :
    utf8Decode (b :: b2 :: b3 :: b4 :: bs)
      = Char.ofNat ((b - 0xF0) * 0x40000 + (b2 - 0x80) * 0x1000
          + (b3 - 0x80) * 0x40 + (b4 - 0x80)) :: utf8Decode bs := by
  simp [utf8Decode, h1, h2, h3]

theorem utf8Bytes_eq_one (n : Nat) (h : n < 0x80) : utf8Bytes n = [n] := by
  unfold utf8Bytes
  rw [if_pos h]

theorem utf8Bytes_eq_two (n : Nat) (h1 : ¬n < 0x80) (h2 : n < 0x800) :
    utf8Bytes n = [0xC0 + n / 0x40, 0x80 + n % 0x40] := by
  unfold utf8Bytes
  rw [if_neg h1, if_pos h2]

theorem utf8Bytes_eq_three (n : Nat) (h1 : ¬n < 0x80) (h2 : ¬n < 0x800)
    (h3 : n < 0x10000) :
    utf8Bytes n = [0xE0 + n / 0x1000, 0x80 + n / 0x40 % 0x40, 0x80 + n % 0x40] := by
  unfold utf8Bytes
  rw [if_neg h1, if_neg h2, if_pos h3]

theorem utf8Bytes_eq_four (n : Nat) (h1 : ¬n < 0x80) (h2 : ¬n < 0x800)
    (h3 : ¬n < 0x10000) :
    utf8Bytes n = [0xF0 + n / 0x40000, 0x80 + n / 0x1000 % 0x40,
      0x80 + n / 0x40 % 0x40, 0x80 + n % 0x40] := by
  unfold utf8Bytes
  rw [if_neg h1, if_neg h2, if_neg h3]

theorem utf8Decode_utf8Bytes (n : Nat) (hn : n < 0x110000) (bs : List Nat) :
    utf8Decode (utf8Bytes n ++ bs) = Char.ofNat n :: utf8Decode bs := by
  by_cases h1 : n < 0x80
  · rw [utf8Bytes_eq_one n h1, List.cons_append, List.nil_append,
      utf8Decode_cons_one n bs (by omega)]
  · by_cases h2 : n < 0x800
    · rw [utf8Bytes_eq_two n h1 h2, List.cons_append, List.cons_append,
        List.nil_append,
        utf8Decode_cons_two (0xC0 + n / 0x40) (0x80 + n % 0x40) bs
          (by omega) (by omega)]
      have harith : (0xC0 + n / 0x40 - 0xC0) * 0x40 + (0x80 + n % 0x40 - 0x80) = n := by
        omega
      rw [harith]
    · by_cases h3 : n < 0x10000
      · rw [utf8Bytes_eq_three n h1 h2 h3, List.cons_append, List.cons_append,
          List.cons_append, List.nil_append,
          utf8Decode_cons_three (0xE0 + n / 0x1000) (0x80 + n / 0x40 % 0x40)
            (0x80 + n % 0x40) bs (by omega) (by omega) (by omega)]
        have harith : (0xE0 + n / 0x1000 - 0xE0) * 0x1000
            + (0x80 + n / 0x40 % 0x40 - 0x80) * 0x40 + (0x80 + n % 0x40 - 0x80) = n := by
          omega
        rw [harith]
      · rw [utf8Bytes_eq_four n h1 h2 h3, List.cons_append, List.cons_append,
          List.cons_append, List.cons_append, List.nil_append,
          utf8Decode_cons_four (0xF0 + n / 0x40000) (0x80 + n / 0x1000 % 0x40)
            (0x80 + n / 0x40 % 0x40) (0x80 + n % 0x40) bs
            (by omega) (by omega) (by omega)]
        have harith : (0xF0 + n / 0x40000 - 0xF0) * 0x40000
            + (0x80 + n / 0x1000 % 0x40 - 0x80) * 0x1000
            + (0x80 + n / 0x40 % 0x40 - 0x80) * 0x40 + (0x80 + n % 0x40 - 0x80) = n := by
          omega
        rw [harith]

theorem utf8Decode_utf8Str (s : List Char) : utf8Decode (utf8Str s) = s := by
  induction s with
  | nil => rfl
  | cons c t ih =>
    show utf8Decode (utf8Bytes c.toNat ++ utf8Str t) = c :: t
    rw [utf8Decode_utf8Bytes c.toNat (char_toNat_lt c) (utf8Str t), ih,
      Char.ofNat_toNat]

theorem pctDecode_encodeURI (s : List Char) : pctDecode (encodeURI s) = utf8Str s := by
  induction s with
  | nil => rfl
  | cons c t ih =>
    show pctDecode (encChar c ++ encodeURI t) = utf8Bytes c.toNat ++ utf8Str t
    by_cases h : uriUnescaped c = true
    · have hch : encChar c = [c] := by simp [encChar, h]
      rw [hch]
      have hne := uriUnescaped_ne_pct c h
      simp only [List.cons_append, List.nil_append]
      rw [pctDecode_cons_ne c (encodeURI t) hne, ih]
    · have hch : encChar c = escBytes (utf8Bytes c.toNat) := by
        simp only [encChar, if_neg h]
      rw [hch, pctDecode_escBytes (utf8Bytes c.toNat)
        (utf8Bytes_bytes_lt c.toNat (char_toNat_lt c)) (encodeURI t), ih]

theorem decodeURI_encodeURI (s : List Char) : decodeURI (encodeURI s) = s := by
  unfold decodeURI
  rw [pctDecode_encodeURI, utf8Decode_utf8Str]

theorem encodeURI_fileScheme : encodeURI fileScheme = fileScheme := by decide

theorem slashify_eq_self (p : List Char) (h : ('\\' : Char) ∉ p) : slashify p = p := by
  induction p with
  | nil => rfl
  | cons c t ih =>
    have hc : ¬c = ('\\' : Char) := fun hc => h (hc ▸ List.mem_cons_self c t)
    have ht := ih (fun hm => h (List.mem_cons_of_mem c hm))
    show (if c = ('\\' : Char) then ('/' : Char) else c) :: slashify t = c :: t
    rw [if_neg hc, ht]

theorem unslashify_slashify (p : List Char) (h : ('/' : Char) ∉ p) :
    (slashify p).map (fun c => if c = ('/' : Char) then ('\\' : Char) else c) = p := by
  induction p with
  | nil => rfl
  | cons c t ih =>
    have hc : ¬c = ('/' : Char) := fun hc => h (hc ▸ List.mem_cons_self c t)
    have ht := ih (fun hm => h (List.mem_cons_of_mem c hm))
    show (fun c => if c = ('/' : Char) then ('\\' : Char) else c)
        ((fun c => if c = ('\\' : Char) then ('/' : Char) else c) c)
        :: (slashify t).map (fun c => if c = ('/' : Char) then ('\\' : Char) else c)
      = c :: t
    rw [ht]
    by_cases hbs : c = ('\\' : Char)
    · subst hbs
      simp
    · simp only [if_neg hbs, if_neg hc]

theorem toUrl_eq (p : List Char) :
    toUrl p = encodeURI (fileScheme ++
      (if (slashify p).head? = some ('/' : Char) then slashify p
       else ('/' : Char) :: slashify p)) := rfl

theorem fromUrl_false_eq (url : List Char) :
    fromUrl false url = decodeURI (url.drop fileScheme.length) := rfl

theorem fromUrl_true_eq (url : List Char) :
    fromUrl true url = ((decodeURI (url.drop fileScheme.length)).drop 1).map
      (fun c => if c = ('/' : Char) then ('\\' : Char) else c) := rfl

/-- C1: the URI conversion round-trips — encoding a resolved path to a wire
URL with `toUrl` and decoding it (with the platform matching the path's
flavor) yields the original path: for a POSIX absolute path (leading `/`, no
backslash) with the non-Windows decoding, and for a Windows drive-letter
style path (no forward slash, not starting with a separator) with the
Windows decoding; moreover for every path whose first character is not a
separator after normalization, `toUrl` prefixes exactly one leading `/`
before percent-encoding and prepending `file://`. -/
theorem toUrl_spec :
    (∀ p : List Char, p.head? = some ('/' : Char) → ('\\' : Char) ∉ p →
        fromUrl false (toUrl p) = p) ∧
    (∀ p : List Char, p ≠ [] → ('/' : Char) ∉ p → p.head? ≠ some ('\\' : Char) →
        fromUrl true (toUrl p) = p) ∧
    (∀ p : List Char, (slashify p).head? ≠ some ('/' : Char) →
        toUrl p = encodeURI (fileScheme ++ ('/' : Char) :: slashify p)) := by
  have hdrop : ∀ q : List Char,
      (encodeURI (fileScheme ++ q)).drop fileScheme.length = encodeURI q := by
    intro q
    rw [encodeURI_append, encodeURI_fileScheme]
    exact List.drop_left fileScheme (encodeURI q)
  refine ⟨?_, ?_, ?_⟩
  · intro p hhead hbs
    have hsl : slashify p = p := slashify_eq_self p hbs
    rw [toUrl_eq, fromUrl_false_eq, hsl, if_pos hhead, hdrop, decodeURI_encodeURI]
  · intro p hne hslash hbshead
    have hq : ¬((slashify p).head? = some ('/' : Char)) := by
      cases p with
      | nil => exact absurd rfl hne
      | cons c t =>
        have hc1 : ¬c = ('/' : Char) := fun h => hslash (h ▸ List.mem_cons_self c t)
        have hc2 : ¬c = ('\\' : Char) := by
          intro h
          exact hbshead (by rw [List.head?_cons, h])
        have hsl : slashify (c :: t)
            = (if c = ('\\' : Char) then ('/' : Char) else c) :: slashify t := rfl
        rw [hsl, List.head?_cons, if_neg hc2]
        intro hcontra
        exact hc1 (Option.some.inj hcontra)
    rw [toUrl_eq, fromUrl_true_eq, if_neg hq, hdrop, decodeURI_encodeURI]
    show (slashify p).map (fun c => if c = ('/' : Char) then ('\\' : Char) else c) = p
    exact unslashify_slashify p hslash
  · intro p hq
    rw [toUrl_eq, if_neg hq]

theorem toUrl_spec_witness :
    fromUrl false (toUrl [('/' : Char), ('a' : Char), (' ' : Char), ('b' : Char)])
        = [('/' : Char), ('a' : Char), (' ' : Char), ('b' : Char)] ∧
    fromUrl true (toUrl [('C' : Char), (':' : Char), ('\\' : Char), ('x' : Char)])
        = [('C' : Char), (':' : Char), ('\\' : Char), ('x' : Char)] :=
  ⟨toUrl_spec.1 [('/' : Char), ('a' : Char), (' ' : Char), ('b' : Char)]
      (by decide) (by decide),
   toUrl_spec.2.1 [('C' : Char), (':' : Char), ('\\' : Char), ('x' : Char)]
      (by decide) (by decide) (by decide)⟩
